import Mathlib

/-!
# Shallow embedding of the jarvis task queue (`src/jarvis/knowledge/task_queue.py`)

The queue stores task records keyed by a deterministic `task_id` derived from
`(task_type, payload)`.  Two backends implement the four public operations
(`enqueue_task`, `fetch_and_lock_task`, `complete_task`, `fail_task`):

* the SQLite backend: one table `task_queue`, modelled as a list of rows keyed
  by `task_id` (the primary key);
* the Redis backend: one serialized record per task plus three index
  structures (a ready list, a delayed sorted set scored by `available_at`,
  and an in-progress sorted set scored by the lease timestamp), modelled as
  lists.

Timestamps (`datetime` values and their isoformat strings / unix scores,
which compare consistently) are modelled as integers.  `payload` is modelled
by its canonical serialization (`json.dumps(payload, sort_keys=True)` is
deterministic), and the SHA-1 task id is modelled by its pre-image string
`task_type ++ ":" ++ payload`, an injective stand-in for the hash.
The code is single-process at this level: the optimistic WATCH retry loop in
the Redis enqueue always succeeds on its first pass and is modelled as that
single pass.  The unbounded `while True` maintenance loops of the Redis
backend are modelled with explicit fuel equal to the relevant structure's
size plus one, which dominates the number of iterations the Python loops can
perform (each non-final iteration removes at least one element).
-/

namespace TaskQueue

/-- Task status values (`STATUS_PENDING`, `STATUS_IN_PROGRESS`,
`STATUS_COMPLETED`, `STATUS_FAILED`). -/
inductive Status where
  | pending
  | in_progress
  | completed
  | failed
deriving DecidableEq, Repr

/-- Timestamps, modelled as integers. -/
abbrev Time := Int

/-- `_compute_task_id`: sha1 of `f"{task_type}:{json.dumps(payload, sort_keys=True)}"`,
modelled by the (injective) pre-image string. -/
def computeTaskId (task_type payload : String) : String :=
  task_type ++ ":" ++ payload

/-- `status in ('completed', 'failed')` — the terminal statuses. -/
def isTerminal (s : Status) : Bool :=
  s = Status.completed || s = Status.failed

/-- The `task_types` filter of `fetch_and_lock_task`.  In Python an empty
sequence is falsy (`if task_types:`), so `none` and `some []` both mean
"no filtering". -/
def typeMatches (task_types : Option (List String)) (ty : String) : Bool :=
  match task_types with
  | none => true
  | some ts => if ts.isEmpty then true else ts.contains ty

/-- The `Task` dataclass returned by `fetch_and_lock_task`. -/
structure Task where
  task_id : String
  task_type : String
  payload : String
  attempts : Nat
  available_at : Time
  locked_at : Option Time
  last_error : Option String
deriving DecidableEq, Repr

/-! ## Generic association-list helpers (keyed storage) -/

/-- Lookup by key: the first element with the given key (SQL `fetchone`,
Redis `GET`). -/
def findByKey {α : Type} (key : α → String) (xs : List α) (id : String) : Option α :=
  xs.find? (fun x => key x = id)

/-- Update every element with the given key (SQL `UPDATE ... WHERE task_id = ?`). -/
def updateByKey {α : Type} (key : α → String) (xs : List α) (id : String) (f : α → α) : List α :=
  xs.map (fun x => if key x = id then f x else x)

/-- Replace-or-append by key (Redis `SET` on a key-value store). -/
def upsertByKey {α : Type} (key : α → String) (xs : List α) (x : α) : List α :=
  if xs.any (fun y => key y = key x) then updateByKey key xs (key x) (fun _ => x)
  else xs ++ [x]

/-! ## SQLite backend -/

/-- One row of the `task_queue` table. -/
structure Row where
  task_id : String
  task_type : String
  status : Status
  payload : String
  attempts : Nat
  available_at : Time
  locked_at : Option Time
  last_error : Option String
  created_at : Time
  updated_at : Time
deriving DecidableEq, Repr

/-- The `task_queue` table (primary key `task_id`). -/
abbrev SqliteDB := List Row

/-- `SELECT * FROM task_queue WHERE task_id = ?` (first row). -/
def getRow (db : SqliteDB) (id : String) : Option Row :=
  findByKey Row.task_id db id

/-- `_sqlite_enqueue_task`: `INSERT ... ON CONFLICT(task_id) DO UPDATE SET
status = CASE WHEN status IN ('completed','failed') THEN excluded.status
ELSE status END, available_at = excluded.available_at,
updated_at = excluded.updated_at`.  The inserted status is `pending` and the
inserted attempts is 0; the conflict clause touches only `status`,
`available_at` and `updated_at`. -/
def sqliteEnqueue (db : SqliteDB) (task_type payload : String)
    (available_at : Option Time) (now : Time) : SqliteDB :=
  let id := computeTaskId task_type payload
  let available := available_at.getD now
  if db.any (fun r => r.task_id = id) then
    updateByKey Row.task_id db id (fun r =>
      { r with
        status := if isTerminal r.status then Status.pending else r.status
        available_at := available
        updated_at := now })
  else
    db ++ [{ task_id := id, task_type := task_type, status := Status.pending,
             payload := payload, attempts := 0, available_at := available,
             locked_at := none, last_error := none,
             created_at := now, updated_at := now }]

/-- The candidate predicate of `_sqlite_fetch_and_lock_task`:
`(status = 'pending' AND available_at <= now) OR
 (status = 'in_progress' AND locked_at <= lock_deadline)`
(an SQL comparison against the NULL `locked_at` is not satisfied). -/
def rowEligible (r : Row) (now deadline : Time) : Bool :=
  (r.status = Status.pending && r.available_at ≤ now)
  || (r.status = Status.in_progress &&
        match r.locked_at with
        | some t => t ≤ deadline
        | none => false)

/-- The rows matching the candidate query (type filter plus eligibility). -/
def candidates (db : SqliteDB) (task_types : Option (List String))
    (now deadline : Time) : List Row :=
  db.filter (fun r => typeMatches task_types r.task_type && rowEligible r now deadline)

/-- `ORDER BY available_at ASC LIMIT 1`: a row of minimal `available_at`. -/
def selectMin : List Row → Option Row
  | [] => none
  | r :: rs =>
    match selectMin rs with
    | none => some r
    | some b => if r.available_at ≤ b.available_at then some r else some b

/-- The `Task` built from a selected row (the row's values as selected,
before the locking UPDATE — in particular the row's old `locked_at`). -/
def taskOfRow (r : Row) : Task :=
  { task_id := r.task_id, task_type := r.task_type, payload := r.payload,
    attempts := r.attempts, available_at := r.available_at,
    locked_at := r.locked_at, last_error := r.last_error }

/-- `_sqlite_fetch_and_lock_task`: select the minimal eligible candidate,
mark it `in_progress` with `locked_at = now`, and return the row as selected. -/
def sqliteFetchAndLock (db : SqliteDB) (task_types : Option (List String))
    (lock_timeout_seconds : Int) (now : Time) : Option Task × SqliteDB :=
  let deadline := now - lock_timeout_seconds
  match selectMin (candidates db task_types now deadline) with
  | none => (none, db)
  | some r =>
    (some (taskOfRow r),
     updateByKey Row.task_id db r.task_id (fun x =>
       { x with status := Status.in_progress, locked_at := some now,
                updated_at := now }))

/-- `_sqlite_complete_task`: `DELETE FROM task_queue WHERE task_id = ?`. -/
def sqliteComplete (db : SqliteDB) (task_id : String) : SqliteDB :=
  db.filter (fun r => r.task_id ≠ task_id)

/-- `_sqlite_fail_task`: read `attempts` (0 when the row is absent), increment,
choose `pending`/`failed` against `max_attempts`, and `UPDATE` the row
(matching no row when the id is absent). -/
def sqliteFail (db : SqliteDB) (task_id : String) (error : String)
    (retry_delay_seconds : Int) (max_attempts : Nat) (now : Time) : SqliteDB :=
  let attempts := ((getRow db task_id).map Row.attempts).getD 0 + 1
  let status := if attempts < max_attempts then Status.pending else Status.failed
  let available := now + retry_delay_seconds
  updateByKey Row.task_id db task_id (fun r =>
    { r with status := status, attempts := attempts, available_at := available,
             locked_at := none, last_error := some (error.take 1024),
             updated_at := now })

/-! ## Redis backend -/

/-- The serialized task record stored at `jarvis:task_queue:task:<task_id>`. -/
structure RTask where
  task_id : String
  task_type : String
  payload : String
  attempts : Nat
  available_at : Time
  locked_at : Option Time
  status : Status
  last_error : Option String
  created_at : Time
  updated_at : Time
deriving DecidableEq, Repr

/-- The Redis queue state: the per-task records plus the three index
structures (ready list, delayed sorted set, in-progress sorted set). -/
structure RedisState where
  records : List RTask
  ready : List String
  delayed : List (String × Time)
  inProgress : List (String × Time)
deriving DecidableEq, Repr

/-- The empty Redis state. -/
def emptyRedis : RedisState :=
  { records := [], ready := [], delayed := [], inProgress := [] }

/-- `ZREM`: drop a member from a sorted set. -/
def zrem (z : List (String × Time)) (m : String) : List (String × Time) :=
  z.filter (fun p => p.1 ≠ m)

/-- `ZADD`: set a member's score (replacing any previous score). -/
def zadd (z : List (String × Time)) (m : String) (s : Time) : List (String × Time) :=
  zrem z m ++ [(m, s)]

/-- Whether a member is in a sorted set. -/
def zhas (z : List (String × Time)) (m : String) : Bool :=
  z.any (fun p => p.1 = m)

/-- Sorted-set score order (insert keeping scores ascending). -/
def insertByScore (p : String × Time) : List (String × Time) → List (String × Time)
  | [] => [p]
  | q :: qs => if p.2 < q.2 then p :: q :: qs else q :: insertByScore p qs

/-- The elements of a sorted set in ascending score order. -/
def sortByScore : List (String × Time) → List (String × Time)
  | [] => []
  | p :: ps => insertByScore p (sortByScore ps)

/-- `_PROMOTION_BATCH_SIZE = 128`. -/
def promotionBatchSize : Nat := 128

/-- `ZRANGEBYSCORE key -inf bound LIMIT 0 128`: the first `128` members whose
score is at most `bound`, in score order. -/
def zrangeByScoreBatch (z : List (String × Time)) (bound : Time) : List String :=
  ((((sortByScore z).filter (fun p => p.2 ≤ bound))).take promotionBatchSize).map Prod.fst

/-- `GET` of a task record. -/
def getRecord (recs : List RTask) (id : String) : Option RTask :=
  findByKey RTask.task_id recs id

/-- `SET` of a task record. -/
def setRecord (recs : List RTask) (r : RTask) : List RTask :=
  upsertByKey RTask.task_id recs r

/-- `_redis_reschedule_task`: remove the id from the ready list and the
delayed set, then push it onto the ready tail when its `available_at` has
passed the reference time, otherwise add it to the delayed set scored by
`available_at`. -/
def redisRescheduleTask (st : RedisState) (task_id : String)
    (available_at : Time) (reference : Time) : RedisState :=
  let ready := st.ready.filter (fun x => x ≠ task_id)
  let delayed := zrem st.delayed task_id
  if available_at ≤ reference then
    { st with ready := ready ++ [task_id], delayed := delayed }
  else
    { st with ready := ready, delayed := zadd delayed task_id available_at }

/-- `_redis_enqueue_task` (the WATCH transaction modelled as its single
uncontended pass): merge into the existing record — resetting `attempts`
and `last_error` only when the stored status is terminal — or create a fresh
record; then remove the id from all three indexes and re-insert it into the
ready list or the delayed set according to `available_at`. -/
def redisEnqueue (st : RedisState) (task_type payload : String)
    (available_at : Option Time) (now : Time) : RedisState :=
  let task_id := computeTaskId task_type payload
  let available := available_at.getD now
  let record : RTask :=
    match getRecord st.records task_id with
    | some old =>
      { old with
        task_type := task_type, payload := payload, available_at := available,
        status := Status.pending, locked_at := none,
        attempts := if isTerminal old.status then 0 else old.attempts,
        last_error := if isTerminal old.status then none else old.last_error,
        updated_at := now }
    | none =>
      { task_id := task_id, task_type := task_type, payload := payload,
        attempts := 0, available_at := available, locked_at := none,
        status := Status.pending, last_error := none,
        created_at := now, updated_at := now }
  let records := setRecord st.records record
  let ready := st.ready.filter (fun x => x ≠ task_id)
  let delayed := zrem st.delayed task_id
  let inProg := zrem st.inProgress task_id
  if available ≤ now then
    { records := records, ready := ready ++ [task_id], delayed := delayed,
      inProgress := inProg }
  else
    { records := records, ready := ready,
      delayed := zadd delayed task_id available, inProgress := inProg }

/-- One iteration body of `_requeue_stale_tasks`'s inner `for` loop: revive
the record (when present) to `pending` with the lease cleared, route it back
through `_redis_reschedule_task`, and drop the id from the in-progress set. -/
def requeueOne (now : Time) (st : RedisState) (task_id : String) : RedisState :=
  let st1 :=
    match getRecord st.records task_id with
    | some data =>
      let data1 := { data with status := Status.pending, locked_at := none,
                               updated_at := now }
      redisRescheduleTask { st with records := setRecord st.records data1 }
        task_id data1.available_at now
    | none => st
  { st1 with inProgress := zrem st1.inProgress task_id }

/-- The batched `while True` loop of `_requeue_stale_tasks`, with fuel. -/
def requeueStaleLoop (now cutoff : Time) : Nat → RedisState → RedisState
  | 0, st => st
  | fuel + 1, st =>
    let stale := zrangeByScoreBatch st.inProgress cutoff
    if stale.isEmpty then st
    else requeueStaleLoop now cutoff fuel (stale.foldl (requeueOne now) st)

/-- `_requeue_stale_tasks`: requeue every in-progress entry whose lease
timestamp is at least `lock_timeout_seconds` old.  The fuel
`st.inProgress.length + 1` dominates the Python loop's iteration count
(each non-final batch removes at least one in-progress entry). -/
def requeueStaleTasks (st : RedisState) (now : Time)
    (lock_timeout_seconds : Int) : RedisState :=
  requeueStaleLoop now (now - lock_timeout_seconds) (st.inProgress.length + 1) st

/-- The batched `while True` loop of `_promote_due_tasks`, with fuel:
move a batch of due delayed entries onto the ready tail. -/
def promoteLoop (deadline : Time) : Nat → RedisState → RedisState
  | 0, st => st
  | fuel + 1, st =>
    let due := zrangeByScoreBatch st.delayed deadline
    if due.isEmpty then st
    else promoteLoop deadline fuel
      { st with delayed := st.delayed.filter (fun p => ¬ due.contains p.1),
                ready := st.ready ++ due }

/-- `_promote_due_tasks`: move every delayed entry whose score has passed
`now` into the ready list. -/
def promoteDueTasks (st : RedisState) (now : Time) : RedisState :=
  promoteLoop now (st.delayed.length + 1) st

/-- The `for _ in range(queue_length)` pop loop of
`_redis_fetch_and_lock_task`.  Also returns the number of pops performed.
Each iteration pops the ready head; a popped id with no record is skipped; a
popped id excluded by the type filter is reset to `pending` and put back
through `_redis_reschedule_task`; otherwise the record is marked
`in_progress` with a fresh lease, added to the in-progress set, and the
`Task` is built from the updated record (so its `locked_at` is `now`). -/
def redisFetchLoop (task_types : Option (List String)) (now : Time) :
    Nat → RedisState → Option Task × RedisState × Nat
  | 0, st => (none, st, 0)
  | fuel + 1, st =>
    match st.ready with
    | [] => (none, st, 0)
    | task_id :: rest =>
      let stp : RedisState := { st with ready := rest }
      match getRecord stp.records task_id with
      | none =>
        let out := redisFetchLoop task_types now fuel stp
        (out.1, out.2.1, out.2.2 + 1)
      | some data =>
        if typeMatches task_types data.task_type then
          let data1 := { data with status := Status.in_progress,
                                   locked_at := some now, updated_at := now }
          (some { task_id := task_id, task_type := data1.task_type,
                  payload := data1.payload, attempts := data1.attempts,
                  available_at := data1.available_at, locked_at := some now,
                  last_error := data1.last_error },
           { stp with records := setRecord stp.records data1,
                      inProgress := zadd stp.inProgress task_id now },
           1)
        else
          let data1 := { data with status := Status.pending, locked_at := none,
                                   updated_at := now }
          let st2 := redisRescheduleTask
            { stp with records := setRecord stp.records data1 }
            task_id data1.available_at now
          let out := redisFetchLoop task_types now fuel st2
          (out.1, out.2.1, out.2.2 + 1)

/-- `_redis_fetch_and_lock_task`: requeue stale leases, promote due delayed
tasks, then pop from the ready list for at most its current length. -/
def redisFetchAndLock (st : RedisState) (task_types : Option (List String))
    (lock_timeout_seconds : Int) (now : Time) : Option Task × RedisState :=
  let st1 := requeueStaleTasks st now lock_timeout_seconds
  let st2 := promoteDueTasks st1 now
  if st2.ready.length = 0 then (none, st2)
  else
    let out := redisFetchLoop task_types now st2.ready.length st2
    (out.1, out.2.1)

/-- `_redis_complete_task`: delete the record and remove the id from all
three index structures. -/
def redisComplete (st : RedisState) (task_id : String) : RedisState :=
  { records := st.records.filter (fun r => r.task_id ≠ task_id),
    ready := st.ready.filter (fun x => x ≠ task_id),
    delayed := zrem st.delayed task_id,
    inProgress := zrem st.inProgress task_id }

/-- `_redis_fail_task`: return immediately when the record is absent;
otherwise increment `attempts`, truncate the error, clear the lease, drop
the id from the in-progress set, and either persist the record as terminal
`failed` (without reinserting it into any index) or set it `pending` with
`available_at = now + retry_delay_seconds` and route it back through
`_redis_reschedule_task`. -/
def redisFail (st : RedisState) (task_id : String) (error : String)
    (retry_delay_seconds : Int) (max_attempts : Nat) (now : Time) : RedisState :=
  match getRecord st.records task_id with
  | none => st
  | some data =>
    let attempts := data.attempts + 1
    let base := { data with attempts := attempts,
                            last_error := some (error.take 1024),
                            locked_at := none, updated_at := now }
    let st1 := { st with inProgress := zrem st.inProgress task_id }
    if max_attempts ≤ attempts then
      { st1 with records := setRecord st1.records { base with status := Status.failed } }
    else
      let avail := now + retry_delay_seconds
      let data1 := { base with status := Status.pending, available_at := avail }
      redisRescheduleTask { st1 with records := setRecord st1.records data1 }
        task_id avail now

/-! ## Concrete fixtures for witnesses and counterexamples -/

/-- A failed (terminal) SQLite row with nonzero attempts and a stored error. -/
def rowFailedEx : Row :=
  { task_id := computeTaskId "t" "p", task_type := "t", status := Status.failed,
    payload := "p", attempts := 3, available_at := 0, locked_at := none,
    last_error := some "e", created_at := 0, updated_at := 0 }

/-- An in-progress SQLite row holding a lease acquired at time 0. -/
def rowInProgressEx : Row :=
  { rowFailedEx with status := Status.in_progress, locked_at := some 0 }

/-- A pending SQLite row available at time 0. -/
def rowPendingEx : Row :=
  { rowFailedEx with status := Status.pending, attempts := 0, last_error := none }

/-- A failed (terminal) Redis record with nonzero attempts and a stored error. -/
def recFailedEx : RTask :=
  { task_id := computeTaskId "t" "p", task_type := "t", payload := "p",
    attempts := 3, available_at := 0, locked_at := none, status := Status.failed,
    last_error := some "e", created_at := 0, updated_at := 0 }

/-- An in-progress Redis record with a lease acquired at time 0. -/
def recInProgressEx : RTask :=
  { recFailedEx with status := Status.in_progress, locked_at := some 0 }

/-- A Redis state holding only the failed record. -/
def stFailedEx : RedisState :=
  { records := [recFailedEx], ready := [], delayed := [], inProgress := [] }

/-- A Redis state with an in-progress record and its lease-ledger entry. -/
def stInProgressEx : RedisState :=
  { records := [recInProgressEx], ready := [],
    delayed := [], inProgress := [(computeTaskId "t" "p", 0)] }

/-- A Redis state whose in-progress set holds an id with no stored record. -/
def stOrphanEx : RedisState :=
  { records := [], ready := [], delayed := [], inProgress := [("x", 0)] }

/-- Index-provenance relation: every id in `st`'s ready list came from
`st0`'s ready list or in-progress set, every delayed member from `st0`'s
delayed or in-progress set, and every in-progress member from `st0`'s
in-progress set.  The stale-lease requeue pass of the Redis fetch moves ids
only along these edges. -/
def reachIdx (st0 st : RedisState) : Prop :=
  (∀ x ∈ st.ready, x ∈ st0.ready ∨ zhas st0.inProgress x = true)
  ∧ (∀ x, zhas st.delayed x = true →
      zhas st0.delayed x = true ∨ zhas st0.inProgress x = true)
  ∧ (∀ x, zhas st.inProgress x = true → zhas st0.inProgress x = true)

/-! ## Helper lemmas: keyed lists -/

theorem findByKey_some_key {α : Type} (key : α → String) (xs : List α)
    (id : String) (x : α) (h : findByKey key xs id = some x) : key x = id := by
  have := List.find?_some h
  simpa using this

theorem findByKey_some_mem {α : Type} (key : α → String) (xs : List α)
    (id : String) (x : α) (h : findByKey key xs id = some x) : x ∈ xs :=
  List.mem_of_find?_eq_some h

theorem findByKey_eq_none {α : Type} (key : α → String) (xs : List α)
    (id : String) (h : ∀ x ∈ xs, key x ≠ id) : findByKey key xs id = none := by
  unfold findByKey
  rw [List.find?_eq_none]
  intro x hx
  simpa using h x hx

theorem findByKey_updateByKey_self {α : Type} (key : α → String) (xs : List α)
    (id : String) (f : α → α) (hf : ∀ x, key x = id → key (f x) = id) :
    findByKey key (updateByKey key xs id f) id = (findByKey key xs id).map f := by
  induction xs with
  | nil => rfl
  | cons y ys ih =>
    simp only [updateByKey, List.map_cons, findByKey, List.find?_cons] at *
    by_cases h : key y = id
    · rw [if_pos h]
      simp [hf y h, h]
    · rw [if_neg h]
      simp only [decide_eq_true_eq, h, decide_False]
      exact ih

theorem findByKey_updateByKey_ne {α : Type} (key : α → String) (xs : List α)
    (id id' : String) (f : α → α) (hf : ∀ x, key x = id → key (f x) = id)
    (hne : id' ≠ id) :
    findByKey key (updateByKey key xs id f) id' = findByKey key xs id' := by
  induction xs with
  | nil => rfl
  | cons y ys ih =>
    simp only [updateByKey, List.map_cons, findByKey, List.find?_cons] at *
    by_cases h : key y = id
    · rw [if_pos h]
      have h1 : key (f y) ≠ id' := by rw [hf y h]; exact fun hc => hne hc.symm
      have h2 : key y ≠ id' := by rw [h]; exact fun hc => hne hc.symm
      simp only [decide_eq_true_eq, h1, h2, decide_False]
      exact ih
    · rw [if_neg h]
      by_cases h' : key y = id'
      · simp [h']
      · simp only [decide_eq_true_eq, h', decide_False]
        exact ih

theorem updateByKey_eq_self {α : Type} (key : α → String) (xs : List α)
    (id : String) (f : α → α) (h : ∀ x ∈ xs, key x ≠ id) :
    updateByKey key xs id f = xs := by
  induction xs with
  | nil => rfl
  | cons y ys ih =>
    simp only [updateByKey, List.map_cons] at *
    rw [if_neg (h y (List.mem_cons_self y ys))]
    rw [ih (fun x hx => h x (List.mem_cons_of_mem y hx))]

theorem findByKey_upsert_self {α : Type} (key : α → String) (xs : List α)
    (x : α) : findByKey key (upsertByKey key xs x) (key x) = some x := by
  unfold upsertByKey
  split
  · next hany =>
    rw [findByKey_updateByKey_self key xs (key x) (fun _ => x) (fun _ _ => rfl)]
    rcases List.any_eq_true.mp hany with ⟨y, hy, hky⟩
    have : (findByKey key xs (key x)).isSome := by
      unfold findByKey
      rw [List.find?_isSome]
      exact ⟨y, hy, by simpa using hky⟩
    rcases Option.isSome_iff_exists.mp this with ⟨z, hz⟩
    rw [hz]
    rfl
  · next hany =>
    have hnone : findByKey key xs (key x) = none := by
      apply findByKey_eq_none
      intro y hy hc
      exact hany (List.any_eq_true.mpr ⟨y, hy, by simpa using hc⟩)
    unfold findByKey at *
    rw [List.find?_append, hnone]
    simp

theorem findByKey_upsert_ne {α : Type} (key : α → String) (xs : List α)
    (x : α) (id' : String) (hne : id' ≠ key x) :
    findByKey key (upsertByKey key xs x) id' = findByKey key xs id' := by
  unfold upsertByKey
  split
  · exact findByKey_updateByKey_ne key xs (key x) id' (fun _ => x) (fun _ _ => rfl) hne
  · unfold findByKey
    rw [List.find?_append]
    have hxk : ¬ key x = id' := fun hc => hne hc.symm
    have : List.find? (fun y => key y = id') [x] = none := by simp [hxk]
    rw [this]
    simp

theorem eq_of_keys_nodup {α : Type} (key : α → String) (xs : List α)
    (h : (xs.map key).Nodup) {a b : α} (ha : a ∈ xs) (hb : b ∈ xs)
    (hk : key a = key b) : a = b := by
  induction xs with
  | nil => cases ha
  | cons y ys ih =>
    rw [List.map_cons, List.nodup_cons] at h
    rcases List.mem_cons.mp ha with ha' | ha' <;>
      rcases List.mem_cons.mp hb with hb' | hb'
    · rw [ha', hb']
    · exfalso
      apply h.1
      rw [ha'] at hk
      rw [hk]
      exact List.mem_map_of_mem key hb'
    · exfalso
      apply h.1
      rw [hb'] at hk
      rw [← hk]
      exact List.mem_map_of_mem key ha'
    · exact ih h.2 ha' hb'

/-! ## Helper lemmas: sorted sets -/

theorem mem_insertByScore (p q : String × Time) (z : List (String × Time)) :
    q ∈ insertByScore p z ↔ q = p ∨ q ∈ z := by
  induction z with
  | nil => simp [insertByScore]
  | cons r rs ih =>
    by_cases h : p.2 < r.2
    · simp [insertByScore, h]
    · simp [insertByScore, h, ih]
      tauto

theorem mem_sortByScore (p : String × Time) (z : List (String × Time)) :
    p ∈ sortByScore z ↔ p ∈ z := by
  induction z with
  | nil => simp [sortByScore]
  | cons q qs ih =>
    simp [sortByScore, mem_insertByScore, ih]

theorem zhas_of_mem_zrangeBatch (z : List (String × Time)) (bound : Time)
    (x : String) (hx : x ∈ zrangeByScoreBatch z bound) : zhas z x = true := by
  unfold zrangeByScoreBatch at hx
  rcases List.mem_map.mp hx with ⟨p, hp, hpx⟩
  have hp1 : p ∈ (sortByScore z).filter (fun p => p.2 ≤ bound) :=
    List.mem_of_mem_take hp
  have hp2 : p ∈ sortByScore z := (List.mem_filter.mp hp1).1
  have hp3 : p ∈ z := (mem_sortByScore p z).mp hp2
  unfold zhas
  exact List.any_eq_true.mpr ⟨p, hp3, by simpa using hpx⟩

theorem zhas_zrem_self (z : List (String × Time)) (m : String) :
    zhas (zrem z m) m = false := by
  unfold zhas zrem
  rw [Bool.eq_false_iff]
  intro hc
  rcases List.any_eq_true.mp hc with ⟨p, hp, hpm⟩
  have := (List.mem_filter.mp hp).2
  simp only [decide_eq_true_eq] at hpm this
  exact this hpm

theorem zhas_zrem_imp (z : List (String × Time)) (m x : String)
    (h : zhas (zrem z m) x = true) : zhas z x = true := by
  unfold zhas zrem at *
  rcases List.any_eq_true.mp h with ⟨p, hp, hpx⟩
  exact List.any_eq_true.mpr ⟨p, (List.mem_filter.mp hp).1, hpx⟩

theorem zhas_zadd_imp (z : List (String × Time)) (m x : String) (s : Time)
    (h : zhas (zadd z m s) x = true) : zhas z x = true ∨ x = m := by
  unfold zadd at h
  unfold zhas at *
  rcases List.any_eq_true.mp h with ⟨p, hp, hpx⟩
  rcases List.mem_append.mp hp with hp' | hp'
  · exact Or.inl (List.any_eq_true.mpr ⟨p, (List.mem_filter.mp hp').1, hpx⟩)
  · simp only [List.mem_singleton] at hp'
    subst hp'
    simp only [decide_eq_true_eq] at hpx
    exact Or.inr hpx.symm

/-! ## Helper lemmas: SQLite candidate selection -/

theorem selectMin_spec (l : List Row) :
    ∀ r, selectMin l = some r →
      r ∈ l ∧ ∀ y ∈ l, r.available_at ≤ y.available_at := by
  induction l with
  | nil => intro r h; cases h
  | cons z zs ih =>
    intro r h
    unfold selectMin at h
    cases hm : selectMin zs with
    | none =>
      rw [hm] at h
      simp only at h
      have hzr : z = r := Option.some.inj h
      subst hzr
      have hzs : zs = [] := by
        cases zs with
        | nil => rfl
        | cons w ws =>
          exfalso
          unfold selectMin at hm
          cases hw : selectMin ws with
          | none => rw [hw] at hm; simp at hm
          | some b =>
            rw [hw] at hm
            simp only at hm
            split at hm <;> simp at hm
      subst hzs
      refine ⟨List.mem_cons_self z [], ?_⟩
      intro y hy
      rcases List.mem_cons.mp hy with hy | hy
      · rw [hy]
      · cases hy
    | some b =>
      rw [hm] at h
      simp only at h
      have hb := ih b hm
      split at h
      · next hle =>
        have hzr : z = r := Option.some.inj h
        subst hzr
        refine ⟨List.mem_cons_self _ _, ?_⟩
        intro y hy
        rcases List.mem_cons.mp hy with hy | hy
        · rw [hy]
        · exact le_trans hle (hb.2 y hy)
      · next hle =>
        have hbr : b = r := Option.some.inj h
        subst hbr
        refine ⟨List.mem_cons_of_mem _ hb.1, ?_⟩
        intro y hy
        rcases List.mem_cons.mp hy with hy | hy
        · rw [hy]; exact le_of_not_le hle
        · exact hb.2 y hy

theorem selectMin_eq_none_iff (l : List Row) : selectMin l = none ↔ l = [] := by
  cases l with
  | nil => simp [selectMin]
  | cons z zs =>
    simp only [List.cons_ne_nil, iff_false]
    intro h
    unfold selectMin at h
    cases hm : selectMin zs with
    | none => rw [hm] at h; simp at h
    | some b =>
      rw [hm] at h
      simp only at h
      split at h <;> simp at h

theorem mem_candidates (db : SqliteDB) (tts : Option (List String))
    (now deadline : Time) (r : Row) :
    r ∈ candidates db tts now deadline ↔
      r ∈ db ∧ typeMatches tts r.task_type = true
        ∧ rowEligible r now deadline = true := by
  unfold candidates
  rw [List.mem_filter]
  simp [Bool.and_eq_true, and_assoc]

theorem sqliteFetch_spec (db : SqliteDB) (tts : Option (List String))
    (lt : Int) (now : Time) (t : Task)
    (h : (sqliteFetchAndLock db tts lt now).1 = some t) :
    ∃ r, r ∈ db ∧ t = taskOfRow r
      ∧ typeMatches tts r.task_type = true
      ∧ rowEligible r now (now - lt) = true
      ∧ (∀ r' ∈ db, typeMatches tts r'.task_type = true →
           rowEligible r' now (now - lt) = true →
           r.available_at ≤ r'.available_at)
      ∧ (sqliteFetchAndLock db tts lt now).2 =
          updateByKey Row.task_id db r.task_id
            (fun x => { x with status := Status.in_progress,
                               locked_at := some now, updated_at := now }) := by
  simp only [sqliteFetchAndLock] at h ⊢
  cases hm : selectMin (candidates db tts now (now - lt)) with
  | none => rw [hm] at h; simp at h
  | some r =>
    rw [hm] at h
    simp only at h
    have hspec := selectMin_spec _ r hm
    have hc := (mem_candidates db tts now (now - lt) r).mp hspec.1
    refine ⟨r, hc.1, (Option.some.inj h).symm, hc.2.1, hc.2.2, ?_, ?_⟩
    · intro r' hr' h1 h2
      exact hspec.2 r' ((mem_candidates db tts now (now - lt) r').mpr ⟨hr', h1, h2⟩)
    · rfl

theorem sqliteFetch_none_iff (db : SqliteDB) (tts : Option (List String))
    (lt : Int) (now : Time) :
    (sqliteFetchAndLock db tts lt now).1 = none ↔
      candidates db tts now (now - lt) = [] := by
  simp only [sqliteFetchAndLock]
  cases hm : selectMin (candidates db tts now (now - lt)) with
  | none =>
    simp [(selectMin_eq_none_iff _).mp hm]
  | some r =>
    constructor
    · intro h; simp at h
    · intro hc
      rw [hc] at hm
      cases hm

/-! ## Helper lemmas: enqueue and fail on each backend -/

theorem any_of_findByKey_some {α : Type} (key : α → String) (xs : List α)
    (id : String) (x : α) (h : findByKey key xs id = some x) :
    xs.any (fun y => key y = id) = true :=
  List.any_eq_true.mpr ⟨x, findByKey_some_mem key xs id x h,
    by simpa using findByKey_some_key key xs id x h⟩

theorem getRow_sqliteEnqueue_hit (db : SqliteDB) (ty pl : String)
    (av : Option Time) (now : Time) (r : Row)
    (h : getRow db (computeTaskId ty pl) = some r) :
    getRow (sqliteEnqueue db ty pl av now) (computeTaskId ty pl) =
      some { r with
             status := if isTerminal r.status then Status.pending else r.status,
             available_at := av.getD now, updated_at := now } := by
  unfold getRow at *
  simp only [sqliteEnqueue,
    if_pos (any_of_findByKey_some Row.task_id db (computeTaskId ty pl) r h)]
  rw [findByKey_updateByKey_self]
  · rw [h]
    rfl
  · exact fun x hx => hx

theorem getRow_sqliteFail_hit (db : SqliteDB) (id err : String) (d : Int)
    (m : Nat) (now : Time) (r : Row) (h : getRow db id = some r) :
    getRow (sqliteFail db id err d m now) id =
      some { r with
             status := if r.attempts + 1 < m then Status.pending else Status.failed,
             attempts := r.attempts + 1, available_at := now + d,
             locked_at := none, last_error := some (err.take 1024),
             updated_at := now } := by
  unfold getRow at *
  simp only [sqliteFail, getRow, h, Option.map_some', Option.getD_some]
  rw [findByKey_updateByKey_self]
  · rw [h]
    rfl
  · exact fun x hx => hx

theorem sqliteFail_absent (db : SqliteDB) (id err : String) (d : Int)
    (m : Nat) (now : Time) (h : ∀ r ∈ db, r.task_id ≠ id) :
    sqliteFail db id err d m now = db := by
  unfold sqliteFail
  exact updateByKey_eq_self Row.task_id db id _ h

theorem getRecord_setRecord_self (recs : List RTask) (r : RTask) :
    getRecord (setRecord recs r) r.task_id = some r :=
  findByKey_upsert_self RTask.task_id recs r

theorem getRecord_setRecord_ne (recs : List RTask) (r : RTask) (id' : String)
    (h : id' ≠ r.task_id) :
    getRecord (setRecord recs r) id' = getRecord recs id' :=
  findByKey_upsert_ne RTask.task_id recs r id' h

theorem redisRescheduleTask_records (st : RedisState) (id : String)
    (a ref : Time) : (redisRescheduleTask st id a ref).records = st.records := by
  unfold redisRescheduleTask
  split <;> rfl

theorem redisRescheduleTask_inProgress (st : RedisState) (id : String)
    (a ref : Time) :
    (redisRescheduleTask st id a ref).inProgress = st.inProgress := by
  unfold redisRescheduleTask
  split <;> rfl

theorem redisEnqueue_records (st : RedisState) (ty pl : String)
    (av : Option Time) (now : Time) :
    (redisEnqueue st ty pl av now).records =
      setRecord st.records
        (match getRecord st.records (computeTaskId ty pl) with
         | some old =>
           { old with
             task_type := ty, payload := pl, available_at := av.getD now,
             status := Status.pending, locked_at := none,
             attempts := if isTerminal old.status then 0 else old.attempts,
             last_error := if isTerminal old.status then none else old.last_error,
             updated_at := now }
         | none =>
           { task_id := computeTaskId ty pl, task_type := ty, payload := pl,
             attempts := 0, available_at := av.getD now, locked_at := none,
             status := Status.pending, last_error := none,
             created_at := now, updated_at := now }) := by
  simp only [redisEnqueue]
  split <;> rfl

theorem getRecord_redisEnqueue_hit (st : RedisState) (ty pl : String)
    (av : Option Time) (now : Time) (old : RTask)
    (h : getRecord st.records (computeTaskId ty pl) = some old) :
    getRecord (redisEnqueue st ty pl av now).records (computeTaskId ty pl) =
      some { old with
             task_type := ty, payload := pl, available_at := av.getD now,
             status := Status.pending, locked_at := none,
             attempts := if isTerminal old.status then 0 else old.attempts,
             last_error := if isTerminal old.status then none else old.last_error,
             updated_at := now } := by
  rw [redisEnqueue_records, h]
  have hkey : old.task_id = computeTaskId ty pl :=
    findByKey_some_key RTask.task_id st.records (computeTaskId ty pl) old h
  have := getRecord_setRecord_self st.records
    { old with
      task_type := ty, payload := pl, available_at := av.getD now,
      status := Status.pending, locked_at := none,
      attempts := if isTerminal old.status then 0 else old.attempts,
      last_error := if isTerminal old.status then none else old.last_error,
      updated_at := now }
  rw [← hkey]
  exact this

theorem getRecord_redisFail_hit (st : RedisState) (id err : String) (d : Int)
    (m : Nat) (now : Time) (data : RTask)
    (h : getRecord st.records id = some data) :
    getRecord (redisFail st id err d m now).records id =
      some (if m ≤ data.attempts + 1 then
              { data with status := Status.failed, attempts := data.attempts + 1,
                          last_error := some (err.take 1024), locked_at := none,
                          updated_at := now }
            else
              { data with status := Status.pending, attempts := data.attempts + 1,
                          last_error := some (err.take 1024), locked_at := none,
                          available_at := now + d, updated_at := now }) := by
  have hkey : data.task_id = id :=
    findByKey_some_key RTask.task_id st.records id data h
  simp only [redisFail, h]
  by_cases hT : m ≤ data.attempts + 1
  · rw [if_pos hT, if_pos hT]
    have := getRecord_setRecord_self st.records
      { data with status := Status.failed, attempts := data.attempts + 1,
                  last_error := some (err.take 1024), locked_at := none,
                  updated_at := now }
    rw [← hkey]
    exact this
  · rw [if_neg hT, if_neg hT]
    rw [redisRescheduleTask_records]
    have := getRecord_setRecord_self st.records
      { data with status := Status.pending, attempts := data.attempts + 1,
                  last_error := some (err.take 1024), locked_at := none,
                  available_at := now + d, updated_at := now }
    rw [← hkey]
    exact this

theorem redisFail_terminal_indexes (st : RedisState) (id err : String)
    (d : Int) (m : Nat) (now : Time) (data : RTask)
    (h : getRecord st.records id = some data) (hT : m ≤ data.attempts + 1) :
    (redisFail st id err d m now).ready = st.ready
    ∧ (redisFail st id err d m now).delayed = st.delayed
    ∧ zhas (redisFail st id err d m now).inProgress id = false := by
  simp only [redisFail, h]
  rw [if_pos hT]
  exact ⟨rfl, rfl, zhas_zrem_self st.inProgress id⟩

/-! ## Claim C1 — re-enqueue of a terminal task -/

/-- Claim C1 counterexample.  The claim states that re-enqueueing a terminal
(`failed`) task resets `attempts` to 0 and clears `last_error` on both
backends.  On the SQLite backend this is false: starting from a table whose
one row for the identity `("t", "p")` is terminal `failed` with
`attempts = 3` and `last_error = some "e"` (the state repeated `fail_task`
calls leave behind), enqueueing the same identity again at time 5 makes the
row `pending` but keeps `attempts = 3` (not 0) and `last_error = some "e"`
(not cleared): the SQLite conflict clause updates only `status`,
`available_at` and `updated_at`. -/
theorem C1_counterexample :
    rowFailedEx.status = Status.failed
    ∧ ((getRow (sqliteEnqueue [rowFailedEx] "t" "p" none 5)
          (computeTaskId "t" "p")).map
        (fun r => (r.status, r.attempts, r.last_error)))
        = some (Status.pending, 3, some "e") := by
  decide

/-- Claim C1 (amended): re-enqueueing a task whose stored status is terminal
(`completed` or `failed`) with the same `(task_type, payload)` identity sets
its status to `pending` and replaces `available_at` on both backends; on the
Redis backend it also resets `attempts` to 0 and clears `last_error`, while
on the SQLite backend `attempts`, `last_error`, `payload` and `locked_at`
are retained unchanged (the conflict clause touches only `status`,
`available_at` and `updated_at`). -/
theorem C1_amended (db : SqliteDB) (st : RedisState) (ty1 pl1 ty2 pl2 : String)
    (av1 av2 : Option Time) (now1 now2 : Time) (r1 : Row) (r2 : RTask)
    (h1 : getRow db (computeTaskId ty1 pl1) = some r1)
    (ht1 : isTerminal r1.status = true)
    (h2 : getRecord st.records (computeTaskId ty2 pl2) = some r2)
    (ht2 : isTerminal r2.status = true) :
    getRow (sqliteEnqueue db ty1 pl1 av1 now1) (computeTaskId ty1 pl1) =
      some { r1 with status := Status.pending, available_at := av1.getD now1,
                     updated_at := now1 }
    ∧ getRecord (redisEnqueue st ty2 pl2 av2 now2).records (computeTaskId ty2 pl2) =
      some { r2 with task_type := ty2, payload := pl2, attempts := 0,
                     last_error := none, status := Status.pending,
                     locked_at := none, available_at := av2.getD now2,
                     updated_at := now2 } := by
  constructor
  · rw [getRow_sqliteEnqueue_hit db ty1 pl1 av1 now1 r1 h1]
    simp [ht1]
  · rw [getRecord_redisEnqueue_hit st ty2 pl2 av2 now2 r2 h2]
    simp [ht2]

/-- Claim C1 witness: the amended claim instantiated at the concrete failed
fixtures. -/
theorem C1_witness :
    getRow [rowFailedEx] (computeTaskId "t" "p") = some rowFailedEx
    ∧ isTerminal rowFailedEx.status = true
    ∧ getRecord stFailedEx.records (computeTaskId "t" "p") = some recFailedEx
    ∧ isTerminal recFailedEx.status = true
    ∧ (getRow (sqliteEnqueue [rowFailedEx] "t" "p" none 7) (computeTaskId "t" "p") =
        some { rowFailedEx with status := Status.pending, available_at := 7,
                                updated_at := 7 }
      ∧ getRecord (redisEnqueue stFailedEx "t" "p" none 7).records (computeTaskId "t" "p") =
        some { recFailedEx with task_type := "t", payload := "p", attempts := 0,
                                last_error := none, status := Status.pending,
                                locked_at := none, available_at := 7,
                                updated_at := 7 }) :=
  ⟨by decide, by decide, by decide, by decide,
   C1_amended [rowFailedEx] stFailedEx "t" "p" "t" "p" none none 7 7
     rowFailedEx recFailedEx (by decide) (by decide) (by decide) (by decide)⟩

/-! ## Claim C2 — re-enqueue of a pending or in-progress task -/

/-- Claim C2 counterexample.  The claim states that re-enqueueing a `pending`
or `in_progress` task leaves its status unchanged on both backends.  On the
Redis backend this is false: re-enqueueing the in-progress fixture sets its
status to `pending` and clears its lease (`locked_at` becomes `none`). -/
theorem C2_counterexample :
    recInProgressEx.status = Status.in_progress
    ∧ ((getRecord (redisEnqueue stInProgressEx "t" "p" none 1).records
          (computeTaskId "t" "p")).map (fun r => (r.status, r.locked_at)))
        = some (Status.pending, none) := by
  decide

/-- Claim C2 (amended): re-enqueueing a `pending` or `in_progress` task with
the same identity replaces its `available_at` and its payload and leaves its
attempts counter (and `last_error`) unchanged on both backends; its status
is kept unchanged on the SQLite backend (as is its lease), but on the Redis
backend the status is set to `pending` and the lease is cleared (an
in-progress task is demoted by a duplicate submission). -/
theorem C2_amended (db : SqliteDB) (st : RedisState) (ty1 pl1 ty2 pl2 : String)
    (av1 av2 : Option Time) (now1 now2 : Time) (r1 : Row) (r2 : RTask)
    (h1 : getRow db (computeTaskId ty1 pl1) = some r1)
    (ht1 : isTerminal r1.status = false)
    (h2 : getRecord st.records (computeTaskId ty2 pl2) = some r2)
    (ht2 : isTerminal r2.status = false) :
    getRow (sqliteEnqueue db ty1 pl1 av1 now1) (computeTaskId ty1 pl1) =
      some { r1 with available_at := av1.getD now1, updated_at := now1 }
    ∧ getRecord (redisEnqueue st ty2 pl2 av2 now2).records (computeTaskId ty2 pl2) =
      some { r2 with task_type := ty2, payload := pl2, status := Status.pending,
                     locked_at := none, available_at := av2.getD now2,
                     updated_at := now2 } := by
  constructor
  · rw [getRow_sqliteEnqueue_hit db ty1 pl1 av1 now1 r1 h1]
    simp [ht1]
  · rw [getRecord_redisEnqueue_hit st ty2 pl2 av2 now2 r2 h2]
    simp [ht2]

/-- Claim C2 witness: the amended claim instantiated at the concrete
in-progress fixtures. -/
theorem C2_witness :
    getRow [rowInProgressEx] (computeTaskId "t" "p") = some rowInProgressEx
    ∧ isTerminal rowInProgressEx.status = false
    ∧ getRecord stInProgressEx.records (computeTaskId "t" "p") = some recInProgressEx
    ∧ isTerminal recInProgressEx.status = false
    ∧ (getRow (sqliteEnqueue [rowInProgressEx] "t" "p" none 9) (computeTaskId "t" "p") =
        some { rowInProgressEx with available_at := 9, updated_at := 9 }
      ∧ getRecord (redisEnqueue stInProgressEx "t" "p" none 9).records (computeTaskId "t" "p") =
        some { recInProgressEx with task_type := "t", payload := "p",
                                    status := Status.pending, locked_at := none,
                                    available_at := 9, updated_at := 9 }) :=
  ⟨by decide, by decide, by decide, by decide,
   C2_amended [rowInProgressEx] stInProgressEx "t" "p" "t" "p" none none 9 9
     rowInProgressEx recInProgressEx (by decide) (by decide) (by decide) (by decide)⟩

/-! ## Claim C4 — fail_task semantics on an existing task -/

/-- Claim C4 (confirmed): for an existing task, `fail_task` increments
`attempts` by exactly one; when the new count is below `max_attempts` the
status becomes `pending`, the lease (`locked_at`) is cleared and
`available_at` becomes `now + retry_delay_seconds`; otherwise the status
becomes the terminal `failed` and the record is retained (not deleted) with
its truncated `last_error` readable — on both backends (the SQLite backend
additionally refreshes `available_at` in the terminal branch, which the
claim does not exclude). -/
theorem C4_fail_spec (db : SqliteDB) (st : RedisState) (id1 id2 err1 err2 : String)
    (d1 d2 : Int) (m1 m2 : Nat) (now1 now2 : Time) (r1 : Row) (r2 : RTask)
    (h1 : getRow db id1 = some r1)
    (h2 : getRecord st.records id2 = some r2) :
    getRow (sqliteFail db id1 err1 d1 m1 now1) id1 =
      some { r1 with
             status := if r1.attempts + 1 < m1 then Status.pending else Status.failed,
             attempts := r1.attempts + 1, available_at := now1 + d1,
             locked_at := none, last_error := some (err1.take 1024),
             updated_at := now1 }
    ∧ getRecord (redisFail st id2 err2 d2 m2 now2).records id2 =
      some (if m2 ≤ r2.attempts + 1 then
              { r2 with status := Status.failed, attempts := r2.attempts + 1,
                        last_error := some (err2.take 1024), locked_at := none,
                        updated_at := now2 }
            else
              { r2 with status := Status.pending, attempts := r2.attempts + 1,
                        last_error := some (err2.take 1024), locked_at := none,
                        available_at := now2 + d2, updated_at := now2 }) :=
  ⟨getRow_sqliteFail_hit db id1 err1 d1 m1 now1 r1 h1,
   getRecord_redisFail_hit st id2 err2 d2 m2 now2 r2 h2⟩

/-- Claim C4 witness: the fail specification instantiated at the concrete
in-progress fixtures (retry branch on SQLite with `max_attempts = 5`,
terminal branch on Redis with `max_attempts = 4`). -/
theorem C4_witness :
    getRow [rowInProgressEx] (computeTaskId "t" "p") = some rowInProgressEx
    ∧ getRecord stInProgressEx.records (computeTaskId "t" "p") = some recInProgressEx
    ∧ (getRow (sqliteFail [rowInProgressEx] (computeTaskId "t" "p") "err" 60 5 10)
          (computeTaskId "t" "p") =
        some { rowInProgressEx with
               status := if rowInProgressEx.attempts + 1 < 5 then Status.pending
                         else Status.failed,
               attempts := rowInProgressEx.attempts + 1, available_at := 70,
               locked_at := none, last_error := some ("err".take 1024),
               updated_at := 10 }
      ∧ getRecord (redisFail stInProgressEx (computeTaskId "t" "p") "err" 60 4 10).records
          (computeTaskId "t" "p") =
        some (if 4 ≤ recInProgressEx.attempts + 1 then
                { recInProgressEx with status := Status.failed,
                                       attempts := recInProgressEx.attempts + 1,
                                       last_error := some ("err".take 1024),
                                       locked_at := none,
                                       updated_at := 10 }
              else
                { recInProgressEx with status := Status.pending,
                                       attempts := recInProgressEx.attempts + 1,
                                       last_error := some ("err".take 1024),
                                       locked_at := none,
                                       available_at := 70, updated_at := 10 })) :=
  ⟨by decide, by decide,
   C4_fail_spec [rowInProgressEx] stInProgressEx (computeTaskId "t" "p")
     (computeTaskId "t" "p") "err" "err" 60 60 5 4 10 10
     rowInProgressEx recInProgressEx (by decide) (by decide)⟩

/-! ## Claim C10 — fail_task on an absent task id -/

/-- Claim C10 counterexample.  The claim's parenthetical asserts that the
Redis backend, on an absent record, still removes the absent id from the
in-progress set.  It does not: `_redis_fail_task` returns before its
`zrem` as soon as the record `GET` comes back empty, so a state whose
in-progress set holds an orphan id (with no stored record) is left entirely
unchanged by `fail_task`, orphan entry included. -/
theorem C10_counterexample :
    zhas stOrphanEx.inProgress "x" = true
    ∧ getRecord stOrphanEx.records "x" = none
    ∧ redisFail stOrphanEx "x" "e" 0 5 0 = stOrphanEx := by
  decide

/-- Claim C10 (amended): calling `fail_task` with a task_id that has no
stored record is a complete silent no-op on both backends — it creates no
task record, changes no queue state at all, and raises no error (the SQLite
UPDATE matches no row; the Redis backend returns immediately when the record
key is absent, before touching any structure, so even the in-progress set is
left untouched). -/
theorem C10_amended (db : SqliteDB) (st : RedisState) (id1 id2 err1 err2 : String)
    (d1 d2 : Int) (m1 m2 : Nat) (now1 now2 : Time)
    (h1 : ∀ r ∈ db, r.task_id ≠ id1)
    (h2 : getRecord st.records id2 = none) :
    sqliteFail db id1 err1 d1 m1 now1 = db
    ∧ redisFail st id2 err2 d2 m2 now2 = st := by
  constructor
  · exact sqliteFail_absent db id1 err1 d1 m1 now1 h1
  · simp only [redisFail, h2]

/-- Claim C10 witness: the absent-id no-op instantiated at the orphan
fixture (whose in-progress set holds the absent id) and at a one-row SQLite
table without the id. -/
theorem C10_witness :
    (∀ r ∈ [rowPendingEx], r.task_id ≠ "nope")
    ∧ getRecord stOrphanEx.records "x" = none
    ∧ (sqliteFail [rowPendingEx] "nope" "e" 0 5 0 = [rowPendingEx]
      ∧ redisFail stOrphanEx "x" "e" 0 5 0 = stOrphanEx) :=
  ⟨by decide, by decide,
   C10_amended [rowPendingEx] stOrphanEx "nope" "x" "e" "e" 0 0 5 5 0 0
     (by decide) (by decide)⟩

/-! ## Helper lemmas: deletion and frame conditions -/

theorem findByKey_filter_self {α : Type} (key : α → String) (xs : List α)
    (id : String) :
    findByKey key (xs.filter (fun x => key x ≠ id)) id = none := by
  apply findByKey_eq_none
  intro x hx
  exact of_decide_eq_true (List.mem_filter.mp hx).2

theorem findByKey_filter_ne {α : Type} (key : α → String) (xs : List α)
    (id id' : String) (hne : id' ≠ id) :
    findByKey key (xs.filter (fun x => key x ≠ id)) id' = findByKey key xs id' := by
  induction xs with
  | nil => rfl
  | cons y ys ih =>
    unfold findByKey at *
    by_cases h : key y = id
    · have hc1 : (decide (key y ≠ id)) = false := by simp [h]
      have hc2 : (decide (key y = id')) = false := by
        refine decide_eq_false ?_
        rw [h]
        exact fun hc => hne hc.symm
      rw [List.filter_cons, hc1, if_neg Bool.false_ne_true,
          List.find?_cons, hc2, ih]
    · have hc1 : (decide (key y ≠ id)) = true := by simp [h]
      rw [List.filter_cons, hc1, if_pos rfl, List.find?_cons, List.find?_cons]
      cases hb : decide (key y = id') with
      | true => rfl
      | false => exact ih

theorem zhas_zrem_ne (z : List (String × Time)) (m x : String) (h : x ≠ m) :
    zhas (zrem z m) x = zhas z x := by
  unfold zhas zrem
  induction z with
  | nil => rfl
  | cons p ps ih =>
    by_cases hp : p.1 = m
    · have hc1 : (decide (p.1 ≠ m)) = false := by simp [hp]
      have hc2 : (decide (p.1 = x)) = false := by
        refine decide_eq_false ?_
        rw [hp]
        exact fun hc => h hc.symm
      rw [List.filter_cons, hc1, if_neg Bool.false_ne_true,
          List.any_cons, hc2, ih, Bool.false_or]
    · have hc1 : (decide (p.1 ≠ m)) = true := by simp [hp]
      rw [List.filter_cons, hc1, if_pos rfl, List.any_cons, List.any_cons, ih]

theorem zrem_eq_self (z : List (String × Time)) (m : String)
    (h : zhas z m = false) : zrem z m = z := by
  unfold zrem
  apply List.filter_eq_self.mpr
  intro p hp
  simp only [decide_eq_true_eq]
  intro hc
  rw [Bool.eq_false_iff] at h
  exact h (List.any_eq_true.mpr ⟨p, hp, by simpa using hc⟩)

/-! ## Claim C8 — complete_task deletes and is an idempotent no-op when absent -/

/-- Claim C8 (confirmed): `complete_task` deletes the task's stored record —
and, on Redis, removes the id from the ready list, the delayed set and the
in-progress set — while leaving every other id's record and index membership
unchanged; and when the id has no stored record (and, on Redis, is in no
index structure) the call is a no-op that changes nothing and raises no
error (both operations are total functions of the state). -/
theorem C8_complete_spec (db : SqliteDB) (st : RedisState) (id1 id2 : String) :
    getRow (sqliteComplete db id1) id1 = none
    ∧ (∀ id', id' ≠ id1 → getRow (sqliteComplete db id1) id' = getRow db id')
    ∧ ((∀ r ∈ db, r.task_id ≠ id1) → sqliteComplete db id1 = db)
    ∧ getRecord (redisComplete st id2).records id2 = none
    ∧ id2 ∉ (redisComplete st id2).ready
    ∧ zhas (redisComplete st id2).delayed id2 = false
    ∧ zhas (redisComplete st id2).inProgress id2 = false
    ∧ (∀ id', id' ≠ id2 →
        getRecord (redisComplete st id2).records id' = getRecord st.records id'
        ∧ (id' ∈ (redisComplete st id2).ready ↔ id' ∈ st.ready)
        ∧ zhas (redisComplete st id2).delayed id' = zhas st.delayed id'
        ∧ zhas (redisComplete st id2).inProgress id' = zhas st.inProgress id')
    ∧ ((getRecord st.records id2 = none ∧ id2 ∉ st.ready
        ∧ zhas st.delayed id2 = false ∧ zhas st.inProgress id2 = false) →
       redisComplete st id2 = st) := by
  refine ⟨?_, ?_, ?_, ?_, ?_, ?_, ?_, ?_, ?_⟩
  · exact findByKey_filter_self Row.task_id db id1
  · intro id' hne
    exact findByKey_filter_ne Row.task_id db id1 id' hne
  · intro h
    unfold sqliteComplete
    apply List.filter_eq_self.mpr
    intro r hr
    simpa using h r hr
  · exact findByKey_filter_self RTask.task_id st.records id2
  · intro hc
    have := (List.mem_filter.mp hc).2
    simp at this
  · exact zhas_zrem_self st.delayed id2
  · exact zhas_zrem_self st.inProgress id2
  · intro id' hne
    refine ⟨findByKey_filter_ne RTask.task_id st.records id2 id' hne, ?_,
            zhas_zrem_ne st.delayed id2 id' hne, zhas_zrem_ne st.inProgress id2 id' hne⟩
    constructor
    · intro hm
      exact (List.mem_filter.mp hm).1
    · intro hm
      exact List.mem_filter.mpr ⟨hm, by simpa using hne⟩
  · rintro ⟨hrec, hready, hdel, hip⟩
    have h1 : st.records.filter (fun r => r.task_id ≠ id2) = st.records := by
      apply List.filter_eq_self.mpr
      intro r hr
      have := List.find?_eq_none.mp hrec r hr
      simpa using this
    have h2 : st.ready.filter (fun x => x ≠ id2) = st.ready := by
      apply List.filter_eq_self.mpr
      intro x hx
      simp only [decide_eq_true_eq]
      intro hc
      rw [hc] at hx
      exact hready hx
    cases st with
    | mk records ready delayed inProg =>
      simp only [redisComplete] at *
      rw [h1, h2, zrem_eq_self _ _ hdel, zrem_eq_self _ _ hip]

/-- Claim C8 witness: the deletion and no-op specification instantiated at a
one-task SQLite table, a Redis state holding the in-progress fixture, and
ids they do not contain. -/
theorem C8_witness :
    getRow (sqliteComplete [rowPendingEx] (computeTaskId "t" "p"))
        (computeTaskId "t" "p") = none
    ∧ (∀ id', id' ≠ computeTaskId "t" "p" →
        getRow (sqliteComplete [rowPendingEx] (computeTaskId "t" "p")) id' =
          getRow [rowPendingEx] id')
    ∧ ((∀ r ∈ [rowPendingEx], r.task_id ≠ computeTaskId "t" "p") →
        sqliteComplete [rowPendingEx] (computeTaskId "t" "p") = [rowPendingEx])
    ∧ getRecord (redisComplete stInProgressEx (computeTaskId "t" "p")).records
        (computeTaskId "t" "p") = none
    ∧ computeTaskId "t" "p" ∉ (redisComplete stInProgressEx (computeTaskId "t" "p")).ready
    ∧ zhas (redisComplete stInProgressEx (computeTaskId "t" "p")).delayed
        (computeTaskId "t" "p") = false
    ∧ zhas (redisComplete stInProgressEx (computeTaskId "t" "p")).inProgress
        (computeTaskId "t" "p") = false
    ∧ (∀ id', id' ≠ computeTaskId "t" "p" →
        getRecord (redisComplete stInProgressEx (computeTaskId "t" "p")).records id' =
          getRecord stInProgressEx.records id'
        ∧ (id' ∈ (redisComplete stInProgressEx (computeTaskId "t" "p")).ready ↔
            id' ∈ stInProgressEx.ready)
        ∧ zhas (redisComplete stInProgressEx (computeTaskId "t" "p")).delayed id' =
            zhas stInProgressEx.delayed id'
        ∧ zhas (redisComplete stInProgressEx (computeTaskId "t" "p")).inProgress id' =
            zhas stInProgressEx.inProgress id')
    ∧ ((getRecord stInProgressEx.records (computeTaskId "t" "p") = none
        ∧ computeTaskId "t" "p" ∉ stInProgressEx.ready
        ∧ zhas stInProgressEx.delayed (computeTaskId "t" "p") = false
        ∧ zhas stInProgressEx.inProgress (computeTaskId "t" "p") = false) →
       redisComplete stInProgressEx (computeTaskId "t" "p") = stInProgressEx) :=
  C8_complete_spec [rowPendingEx] stInProgressEx (computeTaskId "t" "p")
    (computeTaskId "t" "p")

/-! ## Claim C9 — the Redis fetch loop is bounded by the initial ready length -/

theorem redisFetchLoop_count_le (tts : Option (List String)) (now : Time) :
    ∀ fuel st, (redisFetchLoop tts now fuel st).2.2 ≤ fuel := by
  intro fuel
  induction fuel with
  | zero => intro st; exact Nat.le_refl 0
  | succ n ih =>
    intro st
    unfold redisFetchLoop
    cases hr : st.ready with
    | nil => exact Nat.zero_le _
    | cons task_id rest =>
      dsimp only
      cases hg : getRecord st.records task_id with
      | none =>
        dsimp only
        exact Nat.succ_le_succ (ih _)
      | some data =>
        dsimp only
        split
        · exact Nat.succ_le_succ (Nat.zero_le n)
        · dsimp only
          exact Nat.succ_le_succ (ih _)

/-- Claim C9 (confirmed): a Redis `fetch_and_lock_task` call always
terminates; its pop-and-filter loop performs at most as many pops as the
ready list's length measured right after the maintenance passes (the
`range(queue_length)` bound), for every state and every `task_types` filter
— including filters that exclude and re-push every popped task. -/
theorem C9_fetch_loop_bound (st : RedisState) (tts : Option (List String))
    (lock_timeout_seconds : Int) (now : Time) :
    (redisFetchLoop tts now
        (promoteDueTasks (requeueStaleTasks st now lock_timeout_seconds) now).ready.length
        (promoteDueTasks (requeueStaleTasks st now lock_timeout_seconds) now)).2.2
      ≤ (promoteDueTasks (requeueStaleTasks st now lock_timeout_seconds) now).ready.length :=
  redisFetchLoop_count_le tts now _ _

/-! ## Helper lemmas: lookup under nodup keys; requeue preserves records' data -/

theorem findByKey_of_mem_nodup {α : Type} (key : α → String) (xs : List α)
    (h : (xs.map key).Nodup) {r : α} (hr : r ∈ xs) :
    findByKey key xs (key r) = some r := by
  induction xs with
  | nil => cases hr
  | cons y ys ih =>
    unfold findByKey at *
    rw [List.find?_cons]
    by_cases hk : key y = key r
    · have : y = r := eq_of_keys_nodup key (y :: ys) h
        (List.mem_cons_self y ys) hr hk
      rw [decide_eq_true hk, this]
    · rw [decide_eq_false hk]
      rw [List.map_cons, List.nodup_cons] at h
      rcases List.mem_cons.mp hr with hr' | hr'
      · exact absurd (by rw [hr']) hk
      · exact ih h.2 hr'

theorem requeueOne_records_proj (now : Time) (st : RedisState)
    (tid id : String) :
    (getRecord (requeueOne now st tid).records id).map
        (fun x => (x.attempts, x.payload))
      = (getRecord st.records id).map (fun x => (x.attempts, x.payload)) := by
  unfold requeueOne
  cases hg : getRecord st.records tid with
  | none => rfl
  | some data =>
    dsimp only
    rw [redisRescheduleTask_records]
    dsimp only
    have hkey : data.task_id = tid :=
      findByKey_some_key RTask.task_id st.records tid data hg
    by_cases hid : id = tid
    · subst hid
      have h1 := getRecord_setRecord_self st.records
        { data with status := Status.pending, locked_at := none,
                    updated_at := now }
      dsimp only at h1
      rw [← hkey] at hg ⊢
      rw [h1, hg]
      rfl
    · rw [getRecord_setRecord_ne st.records _ id (by simp only []; rw [hkey]; exact hid)]

theorem foldl_requeueOne_records_proj (now : Time) (ids : List String) :
    ∀ st id,
      (getRecord (ids.foldl (requeueOne now) st).records id).map
          (fun x => (x.attempts, x.payload))
        = (getRecord st.records id).map (fun x => (x.attempts, x.payload)) := by
  induction ids with
  | nil => intro st id; rfl
  | cons tid tids ih =>
    intro st id
    rw [List.foldl_cons, ih (requeueOne now st tid) id,
        requeueOne_records_proj now st tid id]

theorem requeueStaleLoop_records_proj (now cutoff : Time) :
    ∀ fuel st id,
      (getRecord (requeueStaleLoop now cutoff fuel st).records id).map
          (fun x => (x.attempts, x.payload))
        = (getRecord st.records id).map (fun x => (x.attempts, x.payload)) := by
  intro fuel
  induction fuel with
  | zero => intro st id; rfl
  | succ n ih =>
    intro st id
    unfold requeueStaleLoop
    dsimp only
    split
    · rfl
    · rw [ih, foldl_requeueOne_records_proj]

/-! ## Claim C7 — lease expiry is not counted as a failure -/

/-- Claim C7 (confirmed): a task redelivered after lease expiry keeps its
attempts counter and payload.  On the SQLite backend, whenever
`fetch_and_lock_task` returns a task through the stale-lease branch (a row
that is `in_progress` with `locked_at` at least `lock_timeout_seconds` in
the past), the returned `Task` carries the row's stored `attempts` and
`payload` and the updated row keeps them unchanged (the locking UPDATE
touches only `status`, `locked_at`, `updated_at`).  On the Redis backend,
the stale-lease requeue pass `_requeue_stale_tasks` leaves every record's
`attempts` and `payload` unchanged. -/
theorem C7_lease_expiry_frame
    (db : SqliteDB) (tts : Option (List String)) (lt : Int) (now : Time)
    (r : Row) (t0 : Time) (tk : Task)
    (st : RedisState) (now2 : Time) (lto2 : Int) (id2 : String)
    (hu : (db.map Row.task_id).Nodup) (hr : r ∈ db)
    (hstat : r.status = Status.in_progress)
    (hlock : r.locked_at = some t0) (hstale : t0 ≤ now - lt)
    (hres : (sqliteFetchAndLock db tts lt now).1 = some tk)
    (hid : tk.task_id = r.task_id) :
    (tk.attempts = r.attempts ∧ tk.payload = r.payload
      ∧ getRow (sqliteFetchAndLock db tts lt now).2 r.task_id =
          some { r with status := Status.in_progress, locked_at := some now,
                        updated_at := now })
    ∧ ((getRecord (requeueStaleTasks st now2 lto2).records id2).map
          (fun x => (x.attempts, x.payload))
        = (getRecord st.records id2).map (fun x => (x.attempts, x.payload))) := by
  constructor
  · obtain ⟨r', hr', ht, _, _, _, hdb⟩ := sqliteFetch_spec db tts lt now tk hres
    have hkeq : r'.task_id = r.task_id := by
      rw [ht] at hid
      exact hid
    have hrr : r' = r := eq_of_keys_nodup Row.task_id db hu hr' hr hkeq
    subst hrr
    refine ⟨by rw [ht]; rfl, by rw [ht]; rfl, ?_⟩
    rw [hdb]
    unfold getRow
    rw [findByKey_updateByKey_self]
    · rw [findByKey_of_mem_nodup Row.task_id db hu hr']
      rfl
    · exact fun x hx => hx
  · exact requeueStaleLoop_records_proj now2 (now2 - lto2) _ st id2

/-- Claim C7 witness: the stale-lease frame conditions instantiated at the
in-progress fixture whose lease (acquired at time 0) has expired by time 400
with a 300-second timeout, and at the Redis in-progress fixture state. -/
theorem C7_witness :
    ([rowInProgressEx].map Row.task_id).Nodup
    ∧ rowInProgressEx ∈ [rowInProgressEx]
    ∧ rowInProgressEx.status = Status.in_progress
    ∧ rowInProgressEx.locked_at = some 0
    ∧ (0 : Int) ≤ 400 - 300
    ∧ (sqliteFetchAndLock [rowInProgressEx] none 300 400).1 =
        some (taskOfRow rowInProgressEx)
    ∧ (taskOfRow rowInProgressEx).task_id = rowInProgressEx.task_id
    ∧ (((taskOfRow rowInProgressEx).attempts = rowInProgressEx.attempts
        ∧ (taskOfRow rowInProgressEx).payload = rowInProgressEx.payload
        ∧ getRow (sqliteFetchAndLock [rowInProgressEx] none 300 400).2
            rowInProgressEx.task_id =
            some { rowInProgressEx with status := Status.in_progress,
                                        locked_at := some 400,
                                        updated_at := 400 })
      ∧ ((getRecord (requeueStaleTasks stInProgressEx 400 300).records
            (computeTaskId "t" "p")).map (fun x => (x.attempts, x.payload))
          = (getRecord stInProgressEx.records (computeTaskId "t" "p")).map
              (fun x => (x.attempts, x.payload)))) :=
  ⟨by decide, by decide, by decide, by decide, by decide, by decide, by decide,
   C7_lease_expiry_frame [rowInProgressEx] none 300 400 rowInProgressEx 0
     (taskOfRow rowInProgressEx) stInProgressEx 400 300 (computeTaskId "t" "p")
     (by decide) (by decide) (by decide) (by decide) (by decide) (by decide)
     (by decide)⟩

/-! ## Claim C5 — SQLite fetch selection rule -/

/-- Claim C5 (confirmed): every task returned by the SQLite
`fetch_and_lock_task` comes from a row that (at selection time) matched the
caller's type filter and was either `pending` with `available_at ≤ now` or
`in_progress` with `locked_at` at least `lock_timeout_seconds` in the past;
among all such eligible rows one with the minimum `available_at` is chosen;
the call returns `none` exactly when no row is eligible; and consequently a
`pending` task whose `available_at` is in the future is never the returned
task. -/
theorem C5_sqlite_selection (db : SqliteDB) (tts : Option (List String))
    (lt : Int) (now : Time) (hu : (db.map Row.task_id).Nodup) :
    (∀ t, (sqliteFetchAndLock db tts lt now).1 = some t →
       ∃ r, r ∈ db ∧ t = taskOfRow r ∧ typeMatches tts r.task_type = true
         ∧ rowEligible r now (now - lt) = true
         ∧ ∀ r' ∈ db, typeMatches tts r'.task_type = true →
             rowEligible r' now (now - lt) = true →
             r.available_at ≤ r'.available_at)
    ∧ ((sqliteFetchAndLock db tts lt now).1 = none ↔
        ∀ r ∈ db, ¬(typeMatches tts r.task_type = true
          ∧ rowEligible r now (now - lt) = true))
    ∧ (∀ r ∈ db, r.status = Status.pending → now < r.available_at →
        (sqliteFetchAndLock db tts lt now).1 ≠ some (taskOfRow r)) := by
  refine ⟨?_, ?_, ?_⟩
  · intro t h
    obtain ⟨r, hr, ht, h1, h2, h3, _⟩ := sqliteFetch_spec db tts lt now t h
    exact ⟨r, hr, ht, h1, h2, h3⟩
  · rw [sqliteFetch_none_iff]
    unfold candidates
    rw [List.filter_eq_nil_iff]
    constructor
    · intro h r hr
      have := h r hr
      simpa [Bool.and_eq_true] using this
    · intro h r hr
      have := h r hr
      simpa [Bool.and_eq_true] using this
  · intro r hr hp hfut hres
    obtain ⟨r', hr', ht, _, helig, _, _⟩ := sqliteFetch_spec db tts lt now _ hres
    have hkeq : r'.task_id = r.task_id := by
      have := congrArg Task.task_id ht
      simpa [taskOfRow] using this.symm
    have hrr : r' = r := eq_of_keys_nodup Row.task_id db hu hr' hr hkeq
    subst hrr
    unfold rowEligible at helig
    rw [hp] at helig
    simp at helig
    exact absurd helig (not_le.mpr hfut)

/-- Claim C5 witness: the selection rule instantiated at a one-row table
holding the pending fixture. -/
theorem C5_witness :
    ([rowPendingEx].map Row.task_id).Nodup
    ∧ ((∀ t, (sqliteFetchAndLock [rowPendingEx] none 300 0).1 = some t →
         ∃ r, r ∈ [rowPendingEx] ∧ t = taskOfRow r
           ∧ typeMatches none r.task_type = true
           ∧ rowEligible r 0 (0 - 300) = true
           ∧ ∀ r' ∈ [rowPendingEx], typeMatches none r'.task_type = true →
               rowEligible r' 0 (0 - 300) = true →
               r.available_at ≤ r'.available_at)
      ∧ ((sqliteFetchAndLock [rowPendingEx] none 300 0).1 = none ↔
          ∀ r ∈ [rowPendingEx], ¬(typeMatches none r.task_type = true
            ∧ rowEligible r 0 (0 - 300) = true))
      ∧ (∀ r ∈ [rowPendingEx], r.status = Status.pending → 0 < r.available_at →
          (sqliteFetchAndLock [rowPendingEx] none 300 0).1 ≠ some (taskOfRow r))) :=
  ⟨by decide, C5_sqlite_selection [rowPendingEx] none 300 0 (by decide)⟩

/-! ## Claim C3 — the two backends are not observably equivalent -/

/-- Claim C3 counterexample.  Run the same operation sequence with the same
timestamps against both backends: one enqueue of `("t", "p")` at time 0,
then one `fetch_and_lock_task` at time 0.  The SQLite backend returns the
task with `locked_at = none` (it builds the `Task` from the row as selected,
before the locking UPDATE), while the Redis backend returns
`locked_at = some 0` (it builds the `Task` from the updated record with the
fresh lease timestamp) — so the returned `Task`s differ. -/
theorem C3_counterexample :
    ((sqliteFetchAndLock (sqliteEnqueue [] "t" "p" none 0) none 300 0).1.map
        Task.locked_at) = some none
    ∧ ((redisFetchAndLock (redisEnqueue emptyRedis "t" "p" none 0) none 300 0).1.map
        Task.locked_at) = some (some 0) := by
  decide

/-- Claim C3 (amended): the two backends are not observably equal at the
public API.  For the simplest agreeing prefix — a single fresh enqueue into
an empty queue at time `t0` followed by a fetch at time `t1 ≥ t0` — both
backends return a task with the same `task_id`, `task_type`, `payload`,
`attempts`, `available_at` and `last_error`, but they differ on `locked_at`:
SQLite reports the pre-claim value `none` while Redis reports the fresh
lease timestamp `some t1`. -/
theorem C3_amended (ty pl : String) (t0 t1 : Time) (lt : Int) (h : t0 ≤ t1) :
    (sqliteFetchAndLock (sqliteEnqueue [] ty pl none t0) none lt t1).1 =
      some { task_id := computeTaskId ty pl, task_type := ty, payload := pl,
             attempts := 0, available_at := t0, locked_at := none,
             last_error := none }
    ∧ (redisFetchAndLock (redisEnqueue emptyRedis ty pl none t0) none lt t1).1 =
      some { task_id := computeTaskId ty pl, task_type := ty, payload := pl,
             attempts := 0, available_at := t0, locked_at := some t1,
             last_error := none } := by
  constructor
  · simp [sqliteEnqueue, sqliteFetchAndLock, candidates, rowEligible,
          typeMatches, selectMin, taskOfRow, h]
  · simp [redisEnqueue, emptyRedis, redisFetchAndLock, requeueStaleTasks,
          requeueStaleLoop, zrangeByScoreBatch, sortByScore, promoteDueTasks,
          promoteLoop, redisFetchLoop, getRecord, setRecord, upsertByKey,
          findByKey, typeMatches, zadd, zrem, redisRescheduleTask]

/-- Claim C3 witness: the restricted agreement statement instantiated at the
concrete trace (`ty = "t"`, `pl = "p"`, enqueue and fetch both at time 0,
`lock_timeout_seconds = 300`). -/
theorem C3_witness :
    (0 : Time) ≤ 0
    ∧ ((sqliteFetchAndLock (sqliteEnqueue [] "t" "p" none 0) none 300 0).1 =
        some { task_id := computeTaskId "t" "p", task_type := "t",
               payload := "p", attempts := 0, available_at := 0,
               locked_at := none, last_error := none }
      ∧ (redisFetchAndLock (redisEnqueue emptyRedis "t" "p" none 0) none 300 0).1 =
        some { task_id := computeTaskId "t" "p", task_type := "t",
               payload := "p", attempts := 0, available_at := 0,
               locked_at := some 0, last_error := none }) :=
  ⟨by decide, C3_amended "t" "p" 0 0 300 (by decide)⟩

/-! ## Helper lemmas: where a Redis fetch's ids can come from -/

theorem zhas_filter_imp (z : List (String × Time)) (p : String × Time → Bool)
    (x : String) (h : zhas (z.filter p) x = true) : zhas z x = true := by
  unfold zhas at *
  rcases List.any_eq_true.mp h with ⟨q, hq, hqx⟩
  exact List.any_eq_true.mpr ⟨q, (List.mem_filter.mp hq).1, hqx⟩

theorem mem_redisRescheduleTask_ready (st : RedisState) (tid : String)
    (a ref : Time) (x : String)
    (hx : x ∈ (redisRescheduleTask st tid a ref).ready) :
    x ∈ st.ready ∨ x = tid := by
  unfold redisRescheduleTask at hx
  dsimp only at hx
  split at hx
  · rcases List.mem_append.mp hx with h | h
    · exact Or.inl (List.mem_filter.mp h).1
    · simp only [List.mem_singleton] at h
      exact Or.inr h
  · exact Or.inl (List.mem_filter.mp hx).1

theorem zhas_redisRescheduleTask_delayed (st : RedisState) (tid : String)
    (a ref : Time) (x : String)
    (hx : zhas (redisRescheduleTask st tid a ref).delayed x = true) :
    zhas st.delayed x = true ∨ x = tid := by
  unfold redisRescheduleTask at hx
  dsimp only at hx
  split at hx
  · exact Or.inl (zhas_zrem_imp _ _ _ hx)
  · rcases zhas_zadd_imp _ _ _ _ hx with h | h
    · exact Or.inl (zhas_zrem_imp _ _ _ h)
    · exact Or.inr h

theorem redisFetchLoop_source (tts : Option (List String)) (now : Time) :
    ∀ fuel st t, (redisFetchLoop tts now fuel st).1 = some t →
      t.task_id ∈ st.ready := by
  intro fuel
  induction fuel with
  | zero =>
    intro st t h
    simp [redisFetchLoop] at h
  | succ n ih =>
    intro st t h
    unfold redisFetchLoop at h
    cases hr : st.ready with
    | nil =>
      rw [hr] at h
      simp at h
    | cons task_id rest =>
      rw [hr] at h
      dsimp only at h
      cases hg : getRecord st.records task_id with
      | none =>
        rw [hg] at h
        dsimp only at h
        exact List.mem_cons_of_mem _ (ih _ t h)
      | some data =>
        rw [hg] at h
        dsimp only at h
        split at h
        · dsimp only at h
          have := Option.some.inj h
          rw [← this]
          exact List.mem_cons_self _ _
        · dsimp only at h
          have hsrc := ih _ t h
          rcases mem_redisRescheduleTask_ready _ _ _ _ _ hsrc with hx | hx
          · exact List.mem_cons_of_mem _ hx
          · rw [hx]
            exact List.mem_cons_self _ _

theorem promoteLoop_source (dl : Time) :
    ∀ fuel st,
      (∀ x ∈ (promoteLoop dl fuel st).ready,
        x ∈ st.ready ∨ zhas st.delayed x = true)
      ∧ (∀ x, zhas (promoteLoop dl fuel st).delayed x = true →
          zhas st.delayed x = true)
      ∧ (promoteLoop dl fuel st).inProgress = st.inProgress := by
  intro fuel
  induction fuel with
  | zero => intro st; exact ⟨fun x hx => Or.inl hx, fun x hx => hx, rfl⟩
  | succ n ih =>
    intro st
    unfold promoteLoop
    dsimp only
    split
    · exact ⟨fun x hx => Or.inl hx, fun x hx => hx, rfl⟩
    · obtain ⟨ha, hb, hc⟩ := ih
        { st with
          delayed := st.delayed.filter
            (fun p => ¬ (zrangeByScoreBatch st.delayed dl).contains p.1),
          ready := st.ready ++ zrangeByScoreBatch st.delayed dl }
      refine ⟨?_, ?_, hc⟩
      · intro x hx
        rcases ha x hx with hx' | hx'
        · rcases List.mem_append.mp hx' with h | h
          · exact Or.inl h
          · exact Or.inr (zhas_of_mem_zrangeBatch _ _ _ h)
        · exact Or.inr (zhas_filter_imp _ _ _ hx')
      · intro x hx
        exact zhas_filter_imp _ _ _ (hb x hx)

theorem reachIdx_refl (st : RedisState) : reachIdx st st :=
  ⟨fun x hx => Or.inl hx, fun x hx => Or.inl hx, fun _ hx => hx⟩

theorem requeueOne_reach (now : Time) (st0 st : RedisState) (tid : String)
    (hst : reachIdx st0 st) (htid : zhas st0.inProgress tid = true) :
    reachIdx st0 (requeueOne now st tid) := by
  obtain ⟨h1, h2, h3⟩ := hst
  unfold requeueOne
  cases hg : getRecord st.records tid with
  | none =>
    dsimp only
    refine ⟨h1, h2, ?_⟩
    intro x hx
    exact h3 x (zhas_zrem_imp _ _ _ hx)
  | some data =>
    dsimp only
    refine ⟨?_, ?_, ?_⟩
    · intro x hx
      rcases mem_redisRescheduleTask_ready _ _ _ _ _ hx with h | h
      · exact h1 x h
      · rw [h]
        exact Or.inr htid
    · intro x hx
      rcases zhas_redisRescheduleTask_delayed _ _ _ _ _ hx with h | h
      · exact h2 x h
      · rw [h]
        exact Or.inr htid
    · intro x hx
      have hx' := zhas_zrem_imp _ _ _ hx
      rw [redisRescheduleTask_inProgress] at hx'
      exact h3 x hx'

theorem foldl_requeueOne_reach (now : Time) (st0 : RedisState) :
    ∀ ids : List String, (∀ i ∈ ids, zhas st0.inProgress i = true) →
      ∀ st, reachIdx st0 st →
        reachIdx st0 (ids.foldl (requeueOne now) st) := by
  intro ids
  induction ids with
  | nil => intro _ st hst; exact hst
  | cons i is ih =>
    intro hids st hst
    rw [List.foldl_cons]
    exact ih (fun j hj => hids j (List.mem_cons_of_mem i hj))
      (requeueOne now st i)
      (requeueOne_reach now st0 st i hst (hids i (List.mem_cons_self i is)))

theorem requeueStaleLoop_reach (now cutoff : Time) :
    ∀ fuel st0 st, reachIdx st0 st →
      reachIdx st0 (requeueStaleLoop now cutoff fuel st) := by
  intro fuel
  induction fuel with
  | zero => intro st0 st hst; exact hst
  | succ n ih =>
    intro st0 st hst
    unfold requeueStaleLoop
    dsimp only
    split
    · exact hst
    · apply ih
      apply foldl_requeueOne_reach now st0 _ _ st hst
      intro i hi
      exact hst.2.2 i (zhas_of_mem_zrangeBatch st.inProgress cutoff i hi)

theorem redisFetch_source (st : RedisState) (tts : Option (List String))
    (lto : Int) (now : Time) (t : Task)
    (h : (redisFetchAndLock st tts lto now).1 = some t) :
    t.task_id ∈ st.ready ∨ zhas st.delayed t.task_id = true
      ∨ zhas st.inProgress t.task_id = true := by
  unfold redisFetchAndLock at h
  dsimp only at h
  split at h
  · cases h
  · have hloop : (redisFetchLoop tts now
        (promoteDueTasks (requeueStaleTasks st now lto) now).ready.length
        (promoteDueTasks (requeueStaleTasks st now lto) now)).1 = some t := h
    have hsrc := redisFetchLoop_source tts now _ _ t hloop
    have hreach : reachIdx st (requeueStaleTasks st now lto) :=
      requeueStaleLoop_reach now (now - lto) _ st st (reachIdx_refl st)
    obtain ⟨pa, pb, _⟩ := promoteLoop_source now
      ((requeueStaleTasks st now lto).delayed.length + 1)
      (requeueStaleTasks st now lto)
    rcases pa _ hsrc with hx | hx
    · rcases hreach.1 _ hx with h' | h'
      · exact Or.inl h'
      · exact Or.inr (Or.inr h')
    · rcases hreach.2.1 _ hx with h' | h'
      · exact Or.inr (Or.inl h')
      · exact Or.inr (Or.inr h')

/-! ## Claim C6 — terminal failed tasks and redelivery -/

/-- Claim C6 counterexample.  The claim states that once a task's status is
terminal `failed`, no subsequent `fetch_and_lock_task` call ever returns it
(unless revived by a new enqueue).  On the Redis backend this is false when
`fail_task` is applied to a task whose id still sits in the ready list:
enqueue `("t", "p")` at time 0 (its id enters the ready list), call
`fail_task` with `max_attempts = 1` (the record becomes terminal `failed`,
but the terminal branch never removes the id from the ready list), then
fetch at time 0 — the fetch pops the id and returns the task, with no
intervening enqueue. -/
theorem C6_counterexample :
    ((getRecord (redisFail (redisEnqueue emptyRedis "t" "p" none 0)
        (computeTaskId "t" "p") "boom" 0 1 0).records (computeTaskId "t" "p")).map
      RTask.status) = some Status.failed
    ∧ ((redisFetchAndLock (redisFail (redisEnqueue emptyRedis "t" "p" none 0)
        (computeTaskId "t" "p") "boom" 0 1 0) none 300 0).1.map Task.task_id)
      = some (computeTaskId "t" "p") := by
  decide

/-- Claim C6 (amended): a terminally failed task whose id is in none of the
three Redis index structures is never returned by a fetch without an
intervening enqueue, and the code enforces this in the normal lifecycle:
(1) on SQLite, a returned task's id never belongs to a row stored as
`failed` (the candidate query excludes that status); (2) on Redis, a fetch
only returns an id that was present in the ready list, the delayed set or
the in-progress set when the call started; and (3) the terminal branch of
the Redis `fail_task` leaves the ready list and the delayed set unchanged
and removes the id from the in-progress set.  However — as the
counterexample shows — a task driven to terminal `failed` while its id still
sits in the ready list remains fetchable, because that branch does not purge
the ready list. -/
theorem C6_failed_not_redelivered
    (db : SqliteDB) (tts : Option (List String)) (lt : Int) (now : Time)
    (st : RedisState) (tts2 : Option (List String)) (lt2 : Int) (now2 : Time)
    (stF : RedisState) (idF errF : String) (dF : Int) (mF : Nat) (nowF : Time)
    (dataF : RTask)
    (hu : (db.map Row.task_id).Nodup)
    (hF : getRecord stF.records idF = some dataF)
    (hFT : mF ≤ dataF.attempts + 1) :
    (∀ r ∈ db, r.status = Status.failed →
      ∀ t, (sqliteFetchAndLock db tts lt now).1 = some t → t.task_id ≠ r.task_id)
    ∧ (∀ t, (redisFetchAndLock st tts2 lt2 now2).1 = some t →
        t.task_id ∈ st.ready ∨ zhas st.delayed t.task_id = true
          ∨ zhas st.inProgress t.task_id = true)
    ∧ ((redisFail stF idF errF dF mF nowF).ready = stF.ready
      ∧ (redisFail stF idF errF dF mF nowF).delayed = stF.delayed
      ∧ zhas (redisFail stF idF errF dF mF nowF).inProgress idF = false) := by
  refine ⟨?_, ?_, redisFail_terminal_indexes stF idF errF dF mF nowF dataF hF hFT⟩
  · intro r hr hfail t ht hc
    obtain ⟨r', hr', hteq, _, helig, _, _⟩ := sqliteFetch_spec db tts lt now t ht
    have hkeq : r'.task_id = r.task_id := by
      rw [hteq] at hc
      exact hc
    have hrr : r' = r := eq_of_keys_nodup Row.task_id db hu hr' hr hkeq
    subst hrr
    unfold rowEligible at helig
    rw [hfail] at helig
    simp at helig
  · intro t ht
    exact redisFetch_source st tts2 lt2 now2 t ht

/-- Claim C6 witness: the amended statement instantiated at a one-row
SQLite table holding the failed fixture, the Redis in-progress fixture
state, and a terminal `fail_task` call (`max_attempts = 4`, fourth attempt)
on the Redis failed-record fixture state. -/
theorem C6_witness :
    ([rowFailedEx].map Row.task_id).Nodup
    ∧ getRecord stFailedEx.records (computeTaskId "t" "p") = some recFailedEx
    ∧ 4 ≤ recFailedEx.attempts + 1
    ∧ ((∀ r ∈ [rowFailedEx], r.status = Status.failed →
         ∀ t, (sqliteFetchAndLock [rowFailedEx] none 300 0).1 = some t →
           t.task_id ≠ r.task_id)
      ∧ (∀ t, (redisFetchAndLock stInProgressEx none 300 500).1 = some t →
          t.task_id ∈ stInProgressEx.ready
            ∨ zhas stInProgressEx.delayed t.task_id = true
            ∨ zhas stInProgressEx.inProgress t.task_id = true)
      ∧ ((redisFail stFailedEx (computeTaskId "t" "p") "e" 0 4 9).ready =
            stFailedEx.ready
        ∧ (redisFail stFailedEx (computeTaskId "t" "p") "e" 0 4 9).delayed =
            stFailedEx.delayed
        ∧ zhas (redisFail stFailedEx (computeTaskId "t" "p") "e" 0 4 9).inProgress
            (computeTaskId "t" "p") = false)) :=
  ⟨by decide, by decide, by decide,
   C6_failed_not_redelivered [rowFailedEx] none 300 0 stInProgressEx none 300 500
     stFailedEx (computeTaskId "t" "p") "e" 0 4 9 recFailedEx
     (by decide) (by decide) (by decide)⟩

end TaskQueue
